import Mathlib

/-!
Verification development for the knack-sleuth usage-indexing and
impact-analysis engine.  The search engine (`KnackSlueth` in
`src/knack_slueth/slueth.py`) is embedded shallowly: Python dicts become
association lists with explicit assignment/lookup semantics, and each scan
of the metadata graph becomes a pure list computation in document order.
The metadata model (`models.py`, a behavior-free pydantic layer) is
represented by structures holding exactly the attributes the engine reads,
shaped as described by the specification's data model.
-/

set_option linter.unusedVariables false

namespace KnackSlueth

/-- A declared relationship entry: the field key carrying the relationship,
its display name, the target/source object key, and the cardinality pair. -/
structure Connection where
  key : String
  name : String
  object : String
  has : String
  belongs_to : String
deriving DecidableEq, Repr

/-- The two connection lists of an object: outbound (this object references
another) and inbound (another object references this one). -/
structure Connections where
  outbound : List Connection
  inbound : List Connection
deriving DecidableEq, Repr

/-- An object's sort specification: sort field key and order. -/
structure ObjectSort where
  field : String
  order : String
deriving DecidableEq, Repr

/-- The format/equation payload of a computed field.  The engine reads only
the `equation` entry of the dumped format dict. -/
structure FieldFormat where
  equation : Option String
deriving DecidableEq, Repr

/-- A field of an object.  The engine reads `key`, `name`, `type` and
`format`. -/
structure KnackField where
  key : String
  name : String
  type : String
  format : Option FieldFormat
deriving DecidableEq, Repr

/-- A data object: key, name, fields, optional identifier field key,
optional sort spec and optional connection lists. -/
structure KnackObject where
  key : String
  name : String
  fields : List KnackField
  identifier : Option String
  sort : Option ObjectSort
  connections : Option Connections
deriving DecidableEq, Repr

/-- A view column; `field` is the `"key"` entry of the column's field
binding dict when one is present (`none` when the column has no field
binding or the dict carries no key). -/
structure ViewColumn where
  header : String
  field : Option String
deriving DecidableEq, Repr

/-- A view source's sort specification. -/
structure ViewSortSpec where
  field : String
  order : String
deriving DecidableEq, Repr

/-- The parent source of a nested/child view: parent object key and the
connection field key scoping it. -/
structure ParentSource where
  object : String
  connection : String
deriving DecidableEq, Repr

/-- A view's data source: target object key, sort specs, optional parent
source and optional relationship connection key. -/
structure ViewSource where
  object : String
  sort : List ViewSortSpec
  parent_source : Option ParentSource
  connection_key : Option String
deriving DecidableEq, Repr

/-- A UI view.  Each input is the `"key"` entry of a form-input dict when
the input is a dict carrying one (`none` otherwise). -/
structure View where
  key : String
  name : String
  type : String
  source : Option ViewSource
  columns : List ViewColumn
  inputs : List (Option String)
deriving DecidableEq, Repr

/-- A UI scene: a page containing views. -/
structure Scene where
  key : String
  name : String
  views : List View
deriving DecidableEq, Repr

/-- The application snapshot read by the engine: ordered objects and
ordered scenes. -/
structure Application where
  objects : List KnackObject
  scenes : List Scene
deriving DecidableEq, Repr

/-- A discovered usage of an object or field: location-kind tag, a
human-readable context string, and detail key/value pairs (the Python
`details` dict, in literal order). -/
structure Usage where
  location_type : String
  context : String
  details : List (String × String)
deriving DecidableEq, Repr

/-- Python `dict.get`: the value bound to `k`, if any.  Association lists
built by `dictSet` bind each key at most once, so the first match is the
binding. -/
def dget {α : Type} : List (String × α) → String → Option α
  | [], _ => Option.none
  | (k0, v) :: rest, k => if k0 = k then some v else dget rest k

/-- Python `d[k] = v` on an insertion-ordered dict: replace the value in
place when `k` is already bound, otherwise append the new binding. -/
def dictSet {α : Type} : List (String × α) → String → α → List (String × α)
  | [], k, v => [(k, v)]
  | (k0, v0) :: rest, k, v =>
    if k0 = k then (k, v) :: rest else (k0, v0) :: dictSet rest k v

/-- Lookup in a dict built by successive assignments over a pair list in
order: the value of the last pair carrying the key, if any. -/
def lookupLast {α : Type} : List (String × α) → String → Option α
  | [], _ => Option.none
  | (k0, v0) :: rest, k =>
    match lookupLast rest k with
    | some v => some v
    | Option.none => if k0 = k then some v0 else Option.none

/-- The object index `objects_by_key`: a dict comprehension over
`app.objects` keyed by object key (later objects override earlier ones on
duplicate keys). -/
def objects_by_key (app : Application) (object_key : String) : Option KnackObject :=
  lookupLast (app.objects.map (fun obj => (obj.key, obj))) object_key

/-- The `(field key, owning object key)` pairs scanned by `_build_indexes`,
in document order. -/
def fieldPairs (app : Application) : List (String × String) :=
  app.objects.flatMap (fun obj => obj.fields.map (fun field => (field.key, obj.key)))

/-- The field index `field_to_object`: built by assigning
`field_to_object[field.key] = obj.key` over `fieldPairs` in order, so the
last occurrence of a key wins. -/
def field_to_object (app : Application) (field_key : String) : Option String :=
  lookupLast (fieldPairs app) field_key

/-- All field keys present in the document, in document order. -/
def allFieldKeys (app : Application) : List String :=
  (fieldPairs app).map Prod.fst

/-- Python `pat in s`: substring containment on the underlying character
lists. -/
def strContains (s pat : String) : Bool :=
  decide (pat.data <:+: s.data)

/-- The `connection_outbound` usage record appended when `obj` has an
outbound connection `conn` targeting the searched object. -/
def outboundUsage (obj : KnackObject) (conn : Connection) : Usage :=
  { location_type := "connection_outbound"
    context := obj.name ++ " (" ++ obj.key ++ ") connects to this object via "
      ++ conn.name ++ " (" ++ conn.key ++ ")"
    details := [("source_object", obj.key), ("source_object_name", obj.name),
      ("connection_field", conn.key), ("connection_name", conn.name),
      ("relationship", conn.has ++ " to " ++ conn.belongs_to)] }

/-- The `connection_inbound` usage record appended when `obj` has an
inbound connection `conn` from the searched object. -/
def inboundUsage (obj : KnackObject) (conn : Connection) : Usage :=
  { location_type := "connection_inbound"
    context := "This object connects from " ++ obj.name ++ " (" ++ obj.key ++ ") via "
      ++ conn.name ++ " (" ++ conn.key ++ ")"
    details := [("target_object", obj.key), ("target_object_name", obj.name),
      ("connection_field", conn.key), ("connection_name", conn.name),
      ("relationship", conn.has ++ " to " ++ conn.belongs_to)] }

/-- `_find_object_usages`, step 1, restricted to one object: its outbound
matches, then its inbound matches. -/
def objectConnUsages (obj : KnackObject) (object_key : String) : List Usage :=
  match obj.connections with
  | Option.none => []
  | some conns =>
    (conns.outbound.filter (fun conn => conn.object == object_key)).map (outboundUsage obj)
    ++ (conns.inbound.filter (fun conn => conn.object == object_key)).map (inboundUsage obj)

/-- `_find_object_usages`, step 1: scan every object's outbound and inbound
connection lists for entries whose target/source object equals
`object_key`. -/
def connectionUsages (app : Application) (object_key : String) : List Usage :=
  app.objects.flatMap (fun obj => objectConnUsages obj object_key)

/-- `_find_object_usages`, step 2: scan every scene's views for a source
whose object equals `object_key`, and for a parent source whose object
equals `object_key`. -/
def viewSourceUsages (app : Application) (object_key : String) : List Usage :=
  app.scenes.flatMap (fun scene => scene.views.flatMap (fun view =>
    (match view.source with
     | some src =>
       if src.object = object_key then
         [{ location_type := "view_source"
            context := "View '" ++ view.name ++ "' (" ++ view.key ++ ") in scene '"
              ++ scene.name ++ "' (" ++ scene.key ++ ") displays this object"
            details := [("scene_key", scene.key), ("scene_name", scene.name),
              ("view_key", view.key), ("view_name", view.name), ("view_type", view.type)] }]
       else []
     | Option.none => []) ++
    (match view.source with
     | some src =>
       match src.parent_source with
       | some ps =>
         if ps.object = object_key then
           [{ location_type := "view_parent_source"
              context := "View '" ++ view.name ++ "' (" ++ view.key
                ++ ") uses this object as parent source"
              details := [("scene_key", scene.key), ("scene_name", scene.name),
                ("view_key", view.key), ("view_name", view.name)] }]
         else []
       | Option.none => []
     | Option.none => [])))

/-- `KnackSlueth._find_object_usages`: every place the object is
referenced, in scan order. -/
def find_object_usages (app : Application) (object_key : String) : List Usage :=
  connectionUsages app object_key ++ viewSourceUsages app object_key

/-- The `connection_field` usage record appended when an outbound
connection of `obj` is carried by the searched field. -/
def connectionFieldUsage (obj : KnackObject) (conn : Connection) : Usage :=
  { location_type := "connection_field"
    context := "Connection field in " ++ obj.name ++ " (" ++ obj.key ++ ")"
    details := [("object_key", obj.key), ("object_name", obj.name),
      ("target_object", conn.object), ("connection_name", conn.name)] }

/-- `_find_field_usages`, step 1: entries of outbound connection lists
whose own key equals `field_key` (inbound lists are not scanned here). -/
def connectionFieldUsages (app : Application) (field_key : String) : List Usage :=
  app.objects.flatMap (fun obj =>
    match obj.connections with
    | Option.none => []
    | some conns =>
      (conns.outbound.filter (fun conn => conn.key == field_key)).map (connectionFieldUsage obj))

/-- `_find_field_usages`, step 2: object sort fields and identifier
fields. -/
def objectFieldUsages (app : Application) (field_key : String) : List Usage :=
  app.objects.flatMap (fun obj =>
    (match obj.sort with
     | some s =>
       if s.field = field_key then
         [{ location_type := "object_sort"
            context := "Used as sort field for " ++ obj.name ++ " (" ++ obj.key ++ ")"
            details := [("object_key", obj.key), ("object_name", obj.name),
              ("sort_order", s.order)] }]
       else []
     | Option.none => []) ++
    (if obj.identifier = some field_key then
       [{ location_type := "object_identifier"
          context := "Used as identifier field for " ++ obj.name ++ " (" ++ obj.key ++ ")"
          details := [("object_key", obj.key), ("object_name", obj.name)] }]
     else []))

/-- The `field_equation` usage record appended when `field` of `obj` has
equation text `eq` referencing the searched field. -/
def equationUsage (obj : KnackObject) (field : KnackField) (eq : String) : Usage :=
  { location_type := "field_equation"
    context := "Referenced in equation for " ++ obj.name ++ "." ++ field.name
      ++ " (" ++ field.key ++ ")"
    details := [("object_key", obj.key), ("object_name", obj.name),
      ("field_key", field.key), ("field_name", field.name), ("equation", eq)] }

/-- `_find_field_usages`, step 3: field equations containing the bracketed
reference token for `field_key` (a truthy equation whose text contains the
literal substring, not a parse). -/
def equationUsages (app : Application) (field_key : String) : List Usage :=
  app.objects.flatMap (fun obj => obj.fields.flatMap (fun field =>
    match field.format with
    | Option.none => []
    | some fmt =>
      match fmt.equation with
      | Option.none => []
      | some eq =>
        if eq ≠ "" ∧ strContains eq ("\x7b" ++ field_key ++ "\x7d") = true then
          [equationUsage obj field eq]
        else []))

/-- `_find_field_usages`, step 4: view columns bound to `field_key`. -/
def viewColumnUsages (app : Application) (field_key : String) : List Usage :=
  app.scenes.flatMap (fun scene => scene.views.flatMap (fun view =>
    (view.columns.filter (fun col => col.field == some field_key)).map (fun col =>
      { location_type := "view_column"
        context := "Column in view '" ++ view.name ++ "' (" ++ view.key ++ ") in scene '"
          ++ scene.name ++ "'"
        details := [("scene_key", scene.key), ("scene_name", scene.name),
          ("view_key", view.key), ("view_name", view.name), ("view_type", view.type),
          ("column_header", col.header)] })))

/-- `_find_field_usages`, step 5: view source sort fields, parent-source
connection keys and relationship connection keys. -/
def viewSortConnUsages (app : Application) (field_key : String) : List Usage :=
  app.scenes.flatMap (fun scene => scene.views.flatMap (fun view =>
    (match view.source with
     | some src =>
       (src.sort.filter (fun s => s.field == field_key)).map (fun s =>
         { location_type := "view_sort"
           context := "Sort field in view '" ++ view.name ++ "' (" ++ view.key ++ ")"
           details := [("scene_key", scene.key), ("scene_name", scene.name),
             ("view_key", view.key), ("view_name", view.name), ("sort_order", s.order)] })
     | Option.none => []) ++
    (match view.source with
     | some src =>
       match src.parent_source with
       | some ps =>
         if ps.connection = field_key then
           [{ location_type := "view_parent_connection"
              context := "Parent connection in view '" ++ view.name ++ "' (" ++ view.key ++ ")"
              details := [("scene_key", scene.key), ("scene_name", scene.name),
                ("view_key", view.key), ("view_name", view.name)] }]
         else []
       | Option.none => []
     | Option.none => []) ++
    (match view.source with
     | some src =>
       if src.connection_key = some field_key then
         [{ location_type := "view_connection_key"
            context := "Connection key in view '" ++ view.name ++ "' (" ++ view.key ++ ")"
            details := [("scene_key", scene.key), ("scene_name", scene.name),
              ("view_key", view.key), ("view_name", view.name)] }]
       else []
     | Option.none => [])))

/-- `_find_field_usages`, step 6: form inputs bound to `field_key`. -/
def formInputUsages (app : Application) (field_key : String) : List Usage :=
  app.scenes.flatMap (fun scene => scene.views.flatMap (fun view =>
    (view.inputs.filter (fun input => input == some field_key)).map (fun input =>
      { location_type := "form_input"
        context := "Input field in form '" ++ view.name ++ "' (" ++ view.key ++ ")"
        details := [("scene_key", scene.key), ("scene_name", scene.name),
          ("view_key", view.key), ("view_name", view.name)] })))

/-- `KnackSlueth._find_field_usages`: every place the field is referenced,
in the order the six scans run. -/
def find_field_usages (app : Application) (field_key : String) : List Usage :=
  connectionFieldUsages app field_key ++ objectFieldUsages app field_key
    ++ equationUsages app field_key ++ viewColumnUsages app field_key
    ++ viewSortConnUsages app field_key ++ formInputUsages app field_key

/-- `KnackSlueth.search_field`: empty when the key is absent from the field
index, otherwise the full field scan. -/
def search_field (app : Application) (field_key : String) : List Usage :=
  match field_to_object app field_key with
  | Option.none => []
  | some _ => find_field_usages app field_key

/-- One iteration of `search_object`'s cascade loop: run the field scan and
record it under the field's key when non-empty. -/
def cascadeStep (app : Application) (results : List (String × List Usage))
    (field : KnackField) : List (String × List Usage) :=
  let field_usages := find_field_usages app field.key
  if field_usages.isEmpty then results
  else dictSet results field.key field_usages

/-- `KnackSlueth.search_object`: empty dict when the key is absent from the
object index; otherwise the `"object_usages"` entry followed by, for every
field of the object whose scan is non-empty, an entry keyed by the field's
key (Python dict assignment order). -/
def search_object (app : Application) (object_key : String) : List (String × List Usage) :=
  match objects_by_key app object_key with
  | Option.none => []
  | some obj =>
    obj.fields.foldl (cascadeStep app)
      (dictSet [("object_usages", [])] "object_usages" (find_object_usages app object_key))

/-! ### Helper lemmas on the dict embeddings -/

theorem dget_cons_self {α : Type} (k : String) (v : α) (rest : List (String × α)) :
    dget ((k, v) :: rest) k = some v := by
  simp [dget]

theorem dget_cons_ne {α : Type} {k0 k : String} (h : k0 ≠ k) (v : α)
    (rest : List (String × α)) : dget ((k0, v) :: rest) k = dget rest k := by
  simp [dget, h]

theorem dget_eq_none_of_not_mem {α : Type} {l : List (String × α)} {k : String}
    (h : k ∉ l.map Prod.fst) : dget l k = Option.none := by
  induction l with
  | nil => rfl
  | cons p rest ih =>
    obtain ⟨k0, v0⟩ := p
    simp only [List.map_cons, List.mem_cons] at h
    push_neg at h
    rw [dget_cons_ne (Ne.symm h.1) v0 rest]
    exact ih h.2

theorem dget_eq_some_of_mem {α : Type} {l : List (String × α)} {k : String} {v : α}
    (hmem : (k, v) ∈ l) (huniq : ∀ p ∈ l, p.1 = k → p.2 = v) : dget l k = some v := by
  induction l with
  | nil => cases hmem
  | cons p rest ih =>
    obtain ⟨k0, v0⟩ := p
    by_cases hk : k0 = k
    · subst hk
      have : v0 = v := huniq (k0, v0) (List.mem_cons_self _ _) rfl
      subst this
      exact dget_cons_self k0 v0 rest
    · rw [dget_cons_ne hk v0 rest]
      rcases List.mem_cons.mp hmem with heq | hmem'
      · exact absurd (congrArg Prod.fst heq).symm hk
      · exact ih hmem' (fun p hp => huniq p (List.mem_cons_of_mem _ hp))

theorem dget_dictSet_self {α : Type} (l : List (String × α)) (k : String) (v : α) :
    dget (dictSet l k v) k = some v := by
  induction l with
  | nil => simp [dictSet, dget]
  | cons p rest ih =>
    obtain ⟨k0, v0⟩ := p
    by_cases hk : k0 = k
    · simp [dictSet, hk, dget]
    · simp only [dictSet, if_neg hk]
      rw [dget_cons_ne hk v0 _]
      exact ih

theorem dget_dictSet_ne {α : Type} {k' k : String} (h : k' ≠ k)
    (l : List (String × α)) (v : α) : dget (dictSet l k' v) k = dget l k := by
  induction l with
  | nil => simp [dictSet, dget, h]
  | cons p rest ih =>
    obtain ⟨k0, v0⟩ := p
    by_cases hk : k0 = k'
    · simp only [dictSet, if_pos hk]
      rw [dget_cons_ne h v rest,
        dget_cons_ne (fun he => h (hk.symm.trans he)) v0 rest]
    · simp only [dictSet, if_neg hk]
      by_cases hk0 : k0 = k
      · subst hk0
        rw [dget_cons_self, dget_cons_self]
      · rw [dget_cons_ne hk0, dget_cons_ne hk0]
        exact ih

theorem mem_dictSet {α : Type} {l : List (String × α)} {k : String} {v : α}
    {p : String × α} (h : p ∈ dictSet l k v) : p ∈ l ∨ p = (k, v) := by
  induction l with
  | nil => simp [dictSet] at h; exact Or.inr h
  | cons q rest ih =>
    obtain ⟨k0, v0⟩ := q
    by_cases hk : k0 = k
    · simp only [dictSet, if_pos hk] at h
      rcases List.mem_cons.mp h with heq | hmem
      · exact Or.inr heq
      · exact Or.inl (List.mem_cons_of_mem _ hmem)
    · simp only [dictSet, if_neg hk] at h
      rcases List.mem_cons.mp h with heq | hmem
      · exact Or.inl (heq ▸ List.mem_cons_self _ _)
      · rcases ih hmem with h' | h'
        · exact Or.inl (List.mem_cons_of_mem _ h')
        · exact Or.inr h'

theorem keys_dictSet_nodup {α : Type} {l : List (String × α)} (k : String) (v : α)
    (h : (l.map Prod.fst).Nodup) : ((dictSet l k v).map Prod.fst).Nodup := by
  induction l with
  | nil => simp [dictSet]
  | cons q rest ih =>
    obtain ⟨k0, v0⟩ := q
    simp only [List.map_cons, List.nodup_cons] at h
    by_cases hk : k0 = k
    · simp only [dictSet, if_pos hk, List.map_cons, List.nodup_cons]
      exact ⟨hk ▸ h.1, h.2⟩
    · simp only [dictSet, if_neg hk, List.map_cons, List.nodup_cons]
      refine ⟨?_, ih h.2⟩
      intro hmem
      have : k0 ∈ rest.map Prod.fst ∨ k0 = k := by
        rcases List.mem_map.mp hmem with ⟨p, hp, hfst⟩
        rcases mem_dictSet hp with h' | h'
        · exact Or.inl (hfst ▸ List.mem_map_of_mem Prod.fst h')
        · exact Or.inr (by rw [← hfst, h'])
      rcases this with h' | h'
      · exact h.1 h'
      · exact hk h'

theorem lookupLast_eq_none_of_not_mem {α : Type} {l : List (String × α)} {k : String}
    (h : k ∉ l.map Prod.fst) : lookupLast l k = Option.none := by
  induction l with
  | nil => rfl
  | cons p rest ih =>
    obtain ⟨k0, v0⟩ := p
    simp only [List.map_cons, List.mem_cons] at h
    push_neg at h
    simp only [lookupLast, ih h.2, if_neg (Ne.symm h.1)]

theorem lookupLast_append_cons {α : Type} (l₁ l₂ : List (String × α)) (k : String) (v : α)
    (h : k ∉ l₂.map Prod.fst) : lookupLast (l₁ ++ (k, v) :: l₂) k = some v := by
  induction l₁ with
  | nil =>
    simp [lookupLast, lookupLast_eq_none_of_not_mem h]
  | cons p rest ih =>
    obtain ⟨k0, v0⟩ := p
    simp only [List.cons_append, lookupLast]
    simp [List.append_eq, ih]

theorem lookupLast_isSome_of_mem {α : Type} {l : List (String × α)} {k : String}
    (h : k ∈ l.map Prod.fst) : (lookupLast l k).isSome = true := by
  induction l with
  | nil => cases h
  | cons p rest ih =>
    obtain ⟨k0, v0⟩ := p
    simp only [List.map_cons, List.mem_cons] at h
    cases hrest : lookupLast rest k with
    | some v => simp [lookupLast, hrest]
    | none =>
      rcases h with heq | hmem
      · subst heq
        simp [lookupLast, hrest]
      · have := ih hmem
        rw [hrest] at this
        cases this

theorem lookupLast_of_nodup {α : Type} {l : List (String × α)} {k : String} {v : α}
    (hnd : (l.map Prod.fst).Nodup) (hmem : (k, v) ∈ l) : lookupLast l k = some v := by
  induction l with
  | nil => cases hmem
  | cons p rest ih =>
    obtain ⟨k0, v0⟩ := p
    simp only [List.map_cons, List.nodup_cons] at hnd
    rcases List.mem_cons.mp hmem with heq | hmem'
    · injection heq with heq1 heq2
      subst heq1
      subst heq2
      simp [lookupLast, lookupLast_eq_none_of_not_mem hnd.1]
    · simp [lookupLast, ih hnd.2 hmem']

theorem cascadeStep_eq_of_empty (app : Application)
    (acc : List (String × List Usage)) (f : KnackField)
    (h : (find_field_usages app f.key).isEmpty = true) :
    cascadeStep app acc f = acc := by
  simp [cascadeStep, h]

theorem cascadeStep_eq_of_nonempty (app : Application)
    (acc : List (String × List Usage)) (f : KnackField)
    (h : (find_field_usages app f.key).isEmpty = false) :
    cascadeStep app acc f = dictSet acc f.key (find_field_usages app f.key) := by
  simp [cascadeStep, h]

theorem foldl_cascade_dget (app : Application) (fs : List KnackField)
    (acc : List (String × List Usage)) (k : String) :
    dget (fs.foldl (cascadeStep app) acc) k =
      if (find_field_usages app k).isEmpty = false ∧ ∃ f ∈ fs, f.key = k
      then some (find_field_usages app k) else dget acc k := by
  induction fs generalizing acc with
  | nil => simp
  | cons f fs ih =>
    rw [List.foldl_cons, ih]
    by_cases hk : f.key = k
    · subst hk
      by_cases hemp : (find_field_usages app f.key).isEmpty = true
      · rw [cascadeStep_eq_of_empty app acc f hemp]
        rw [if_neg (fun h => by simp [hemp] at h),
          if_neg (fun h => by simp [hemp] at h)]
      · simp only [Bool.not_eq_true] at hemp
        rw [cascadeStep_eq_of_nonempty app acc f hemp]
        rw [if_pos (show (find_field_usages app f.key).isEmpty = false ∧
            ∃ g ∈ f :: fs, g.key = f.key
          from ⟨hemp, f, List.mem_cons_self f fs, rfl⟩)]
        by_cases hfs : ∃ g ∈ fs, g.key = f.key
        · rw [if_pos (show (find_field_usages app f.key).isEmpty = false ∧
              ∃ g ∈ fs, g.key = f.key from ⟨hemp, hfs⟩)]
        · rw [if_neg (show ¬((find_field_usages app f.key).isEmpty = false ∧
              ∃ g ∈ fs, g.key = f.key) from fun h => hfs h.2)]
          rw [dget_dictSet_self]
    · have hstep : dget (cascadeStep app acc f) k = dget acc k := by
        by_cases hemp : (find_field_usages app f.key).isEmpty = true
        · rw [cascadeStep_eq_of_empty app acc f hemp]
        · simp only [Bool.not_eq_true] at hemp
          rw [cascadeStep_eq_of_nonempty app acc f hemp]
          exact dget_dictSet_ne hk _ _
      rw [hstep]
      have hiff : ((find_field_usages app k).isEmpty = false ∧
            ∃ g ∈ f :: fs, g.key = k) ↔
          ((find_field_usages app k).isEmpty = false ∧ ∃ g ∈ fs, g.key = k) := by
        constructor
        · rintro ⟨h1, g, hg, hgk⟩
          rcases List.mem_cons.mp hg with rfl | hg'
          · exact absurd hgk hk
          · exact ⟨h1, g, hg', hgk⟩
        · rintro ⟨h1, g, hg, hgk⟩
          exact ⟨h1, g, List.mem_cons_of_mem f hg, hgk⟩
      rw [if_congr hiff rfl rfl]

theorem foldl_cascade_mem (app : Application) (fs : List KnackField)
    (acc : List (String × List Usage)) (p : String × List Usage)
    (h : p ∈ fs.foldl (cascadeStep app) acc) :
    p ∈ acc ∨ ∃ f ∈ fs, p.1 = f.key := by
  induction fs generalizing acc with
  | nil => exact Or.inl h
  | cons f fs ih =>
    rw [List.foldl_cons] at h
    rcases ih _ h with hacc | ⟨g, hg, hp⟩
    · by_cases hemp : (find_field_usages app f.key).isEmpty = true
      · rw [cascadeStep_eq_of_empty app acc f hemp] at hacc
        exact Or.inl hacc
      · simp only [Bool.not_eq_true] at hemp
        rw [cascadeStep_eq_of_nonempty app acc f hemp] at hacc
        rcases mem_dictSet hacc with h' | h'
        · exact Or.inl h'
        · exact Or.inr ⟨f, List.mem_cons_self f fs, by rw [h']⟩
    · exact Or.inr ⟨g, List.mem_cons_of_mem f hg, hp⟩

theorem foldl_cascade_keys_nodup (app : Application) (fs : List KnackField)
    (acc : List (String × List Usage)) (h : (acc.map Prod.fst).Nodup) :
    ((fs.foldl (cascadeStep app) acc).map Prod.fst).Nodup := by
  induction fs generalizing acc with
  | nil => exact h
  | cons f fs ih =>
    rw [List.foldl_cons]
    apply ih
    by_cases hemp : (find_field_usages app f.key).isEmpty = true
    · rw [cascadeStep_eq_of_empty app acc f hemp]
      exact h
    · simp only [Bool.not_eq_true] at hemp
      rw [cascadeStep_eq_of_nonempty app acc f hemp]
      exact keys_dictSet_nodup _ _ h

/-! ### Concrete snapshots used to instantiate the theorems -/

/-- A field with no format payload. -/
def wf1 : KnackField :=
  { key := "field_1", name := "Name", type := "short_text", format := Option.none }

/-- The connection carried by `field_2`, targeting `object_2`. -/
def wc1 : Connection :=
  { key := "field_2", name := "Company", object := "object_2", has := "many",
    belongs_to := "one" }

/-- An object with one field, an identifier and one outbound connection. -/
def wo1 : KnackObject :=
  { key := "object_1", name := "People", fields := [wf1],
    identifier := some "field_1", sort := Option.none,
    connections := some { outbound := [wc1], inbound := [] } }

/-- A connection-type field. -/
def wf2 : KnackField :=
  { key := "field_2", name := "Company Link", type := "connection",
    format := Option.none }

/-- A computed field whose equation references `field_1`. -/
def wf3 : KnackField :=
  { key := "field_3", name := "Total", type := "equation",
    format := some { equation := some "\x7bfield_1\x7d + 1" } }

/-- The object targeted by `wo1`'s outbound connection. -/
def wo2 : KnackObject :=
  { key := "object_2", name := "Companies", fields := [wf2, wf3],
    identifier := Option.none, sort := Option.none,
    connections := some { outbound := [], inbound := [wc1] } }

/-- A small snapshot with two connected objects and no scenes. -/
def wApp : Application := { objects := [wo1, wo2], scenes := [] }

/-- A field key declared by two different objects of `wAppDup`. -/
def g7a : KnackField :=
  { key := "field_7", name := "Shared", type := "short_text", format := Option.none }

/-- A second declaration of the duplicated field key. -/
def g7b : KnackField :=
  { key := "field_7", name := "Shared again", type := "short_text",
    format := Option.none }

/-- An object owning `field_7`. -/
def e1 : KnackObject :=
  { key := "object_8", name := "First owner", fields := [g7a],
    identifier := Option.none, sort := Option.none, connections := Option.none }

/-- A second object also declaring `field_7`, sharing its key with `e3`. -/
def e2 : KnackObject :=
  { key := "object_9", name := "Original", fields := [g7b],
    identifier := Option.none, sort := Option.none, connections := Option.none }

/-- A later object with the same object key as `e2`. -/
def e3 : KnackObject :=
  { key := "object_9", name := "Override", fields := [],
    identifier := Option.none, sort := Option.none, connections := Option.none }

/-- A snapshot with a duplicate object key and a duplicate field key. -/
def wAppDup : Application := { objects := [e1, e2, e3], scenes := [] }

/-! ### Claims -/

/-- C2.  Unknown-key safety: for every snapshot, a field-usage search with a
key absent from the field index returns the empty sequence, and an object
search with a key absent from the object index returns the empty mapping.
Both operations are total functions of the snapshot, so neither can raise. -/
theorem unknown_key_safety (app : Application) (fkey okey : String)
    (hf : field_to_object app fkey = Option.none)
    (ho : objects_by_key app okey = Option.none) :
    search_field app fkey = [] ∧ search_object app okey = [] := by
  constructor
  · simp [search_field, hf]
  · simp [search_object, ho]

/-- Witness for C2 at a concrete snapshot and the spec's two probe keys. -/
theorem unknown_key_safety_witness :
    (field_to_object wApp "field_does_not_exist" = Option.none ∧
      objects_by_key wApp "object_does_not_exist" = Option.none) ∧
    (search_field wApp "field_does_not_exist" = [] ∧
      search_object wApp "object_does_not_exist" = []) :=
  ⟨⟨by decide, by decide⟩,
    unknown_key_safety wApp "field_does_not_exist" "object_does_not_exist"
      (by decide) (by decide)⟩

/-- C3.  Connection symmetry: whenever an object `A` of the snapshot has an
outbound connection `c` whose target object key is `B.key`, the object-usage
scan for `B.key` contains a `connection_outbound` usage whose details name
`A` as the source object together with `c`'s field key. -/
theorem connection_symmetry (app : Application) (A B : KnackObject)
    (conns : Connections) (c : Connection) (hA : A ∈ app.objects)
    (hconn : A.connections = some conns) (hc : c ∈ conns.outbound)
    (htarget : c.object = B.key) :
    ∃ u ∈ find_object_usages app B.key,
      u.location_type = "connection_outbound" ∧
      dget u.details "source_object" = some A.key ∧
      dget u.details "connection_field" = some c.key := by
  refine ⟨outboundUsage A c, ?_, rfl, ?_, ?_⟩
  · unfold find_object_usages
    apply List.mem_append_left
    unfold connectionUsages
    rw [List.mem_flatMap]
    refine ⟨A, hA, ?_⟩
    unfold objectConnUsages
    rw [hconn]
    apply List.mem_append_left
    exact List.mem_map_of_mem _ (List.mem_filter.mpr ⟨hc, by simp [htarget]⟩)
  · exact dget_cons_self _ _ _
  · show dget [("source_object", A.key), ("source_object_name", A.name),
      ("connection_field", c.key), ("connection_name", c.name),
      ("relationship", c.has ++ " to " ++ c.belongs_to)] "connection_field" = some c.key
    rw [dget_cons_ne (by decide), dget_cons_ne (by decide)]
    exact dget_cons_self _ _ _

/-- Witness for C3: `wo1` connects outbound to `wo2` in `wApp`. -/
theorem connection_symmetry_witness :
    (wo1 ∈ wApp.objects ∧
      wo1.connections = some { outbound := [wc1], inbound := [] } ∧
      wc1 ∈ ({ outbound := [wc1], inbound := [] } : Connections).outbound ∧
      wc1.object = wo2.key) ∧
    (∃ u ∈ find_object_usages wApp wo2.key,
      u.location_type = "connection_outbound" ∧
      dget u.details "source_object" = some wo1.key ∧
      dget u.details "connection_field" = some wc1.key) :=
  ⟨⟨by decide, rfl, by decide, rfl⟩,
    connection_symmetry wApp wo1 wo2 _ wc1 (by decide) rfl (by decide) rfl⟩

/-- C9.  Index totality: the field index is defined on every field of every
object of the document, and when field keys are globally unique it maps each
field key to its owning object's key. -/
theorem index_totality (app : Application) (obj : KnackObject) (f : KnackField)
    (hobj : obj ∈ app.objects) (hf : f ∈ obj.fields) :
    (field_to_object app f.key).isSome = true ∧
    ((allFieldKeys app).Nodup → field_to_object app f.key = some obj.key) := by
  have hpair : (f.key, obj.key) ∈ fieldPairs app := by
    unfold fieldPairs
    rw [List.mem_flatMap]
    exact ⟨obj, hobj, List.mem_map_of_mem _ hf⟩
  constructor
  · exact lookupLast_isSome_of_mem (List.mem_map_of_mem Prod.fst hpair)
  · intro hnd
    exact lookupLast_of_nodup hnd hpair

/-- Witness for C9: `field_1` of `wo1` is indexed and owned by `object_1`. -/
theorem index_totality_witness :
    (wo1 ∈ wApp.objects ∧ wf1 ∈ wo1.fields ∧ (allFieldKeys wApp).Nodup) ∧
    field_to_object wApp wf1.key = some wo1.key :=
  ⟨⟨by decide, by decide, by decide⟩,
    (index_totality wApp wo1 wf1 (by decide) (by decide)).2 (by decide)⟩

/-- C10.  Duplicate keys resolve last-wins: index construction is a total
function (it cannot fail on duplicates), the object index binds a duplicated
object key to the last object of document order carrying it, and the field
index binds a duplicated field key to the owning object key of its last
occurrence in the scan. -/
theorem duplicate_keys_last_wins (app : Application) (k : String) :
    (∀ l₁ (o : KnackObject) l₂, app.objects = l₁ ++ o :: l₂ → o.key = k →
        (∀ o' ∈ l₂, o'.key ≠ k) → objects_by_key app k = some o) ∧
    (∀ p₁ (okey : String) p₂, fieldPairs app = p₁ ++ (k, okey) :: p₂ →
        k ∉ p₂.map Prod.fst → field_to_object app k = some okey) := by
  constructor
  · intro l₁ o l₂ hsplit hkey hlast
    unfold objects_by_key
    rw [hsplit, List.map_append, List.map_cons, hkey]
    apply lookupLast_append_cons
    intro hmem
    simp only [List.map_map] at hmem
    rcases List.mem_map.mp hmem with ⟨o', ho', hk'⟩
    exact hlast o' ho' hk'
  · intro p₁ okey p₂ hsplit hnot
    unfold field_to_object
    rw [hsplit]
    exact lookupLast_append_cons _ _ _ _ hnot

/-- Witness for C10 on a snapshot with a duplicated object key and a
duplicated field key: the later declarations win. -/
theorem duplicate_keys_last_wins_witness :
    objects_by_key wAppDup "object_9" = some e3 ∧
    field_to_object wAppDup "field_7" = some "object_9" :=
  ⟨(duplicate_keys_last_wins wAppDup "object_9").1 [e1, e2] e3 [] rfl rfl
      (by intro o' h; cases h),
    (duplicate_keys_last_wins wAppDup "field_7").2 [("field_7", "object_8")]
      "object_9" [] (by decide) (by decide)⟩

/-- C7.  Equation reference detection by exact substring: if a field `g` of
an object of the snapshot has a format whose equation text contains the
literal bracketed token for key `k` (substring containment of the character
sequence, not equation parsing), the field-usage scan for `k` contains a
`field_equation` usage whose details name `g` as the referencing field. -/
theorem equation_reference_detection (app : Application) (obj : KnackObject)
    (g : KnackField) (fmt : FieldFormat) (eq k : String)
    (hobj : obj ∈ app.objects) (hg : g ∈ obj.fields)
    (hfmt : g.format = some fmt) (heqn : fmt.equation = some eq)
    (hsub : ("\x7b" ++ k ++ "\x7d").data <:+: eq.data) :
    ∃ u ∈ find_field_usages app k,
      u.location_type = "field_equation" ∧
      dget u.details "field_key" = some g.key := by
  have hne : eq ≠ "" := by
    intro h0
    have hlen := List.IsInfix.length_le hsub
    rw [h0] at hlen
    simp [String.data_append] at hlen
  refine ⟨equationUsage obj g eq, ?_, rfl, ?_⟩
  · unfold find_field_usages
    apply List.mem_append_left
    apply List.mem_append_left
    apply List.mem_append_left
    apply List.mem_append_right
    unfold equationUsages
    rw [List.mem_flatMap]
    refine ⟨obj, hobj, ?_⟩
    rw [List.mem_flatMap]
    refine ⟨g, hg, ?_⟩
    rw [hfmt]
    show equationUsage obj g eq ∈
      (match fmt.equation with
       | Option.none => []
       | some e =>
         if e ≠ "" ∧ strContains e ("\x7b" ++ k ++ "\x7d") = true
         then [equationUsage obj g e] else [])
    rw [heqn]
    show equationUsage obj g eq ∈
      (if eq ≠ "" ∧ strContains eq ("\x7b" ++ k ++ "\x7d") = true
       then [equationUsage obj g eq] else [])
    rw [if_pos ⟨hne, decide_eq_true hsub⟩]
    exact List.mem_singleton.mpr rfl
  · show dget [("object_key", obj.key), ("object_name", obj.name),
      ("field_key", g.key), ("field_name", g.name), ("equation", eq)] "field_key"
      = some g.key
    rw [dget_cons_ne (by decide), dget_cons_ne (by decide)]
    exact dget_cons_self _ _ _

/-- Witness for C7: the equation of `wf3` references `field_1` in `wApp`. -/
theorem equation_reference_detection_witness :
    (wo2 ∈ wApp.objects ∧ wf3 ∈ wo2.fields ∧
      wf3.format = some { equation := some "\x7bfield_1\x7d + 1" } ∧
      ("\x7b" ++ "field_1" ++ "\x7d").data <:+: ("\x7bfield_1\x7d + 1" : String).data) ∧
    (∃ u ∈ find_field_usages wApp "field_1",
      u.location_type = "field_equation" ∧
      dget u.details "field_key" = some wf3.key) :=
  ⟨⟨by decide, by decide, rfl, by decide⟩,
    equation_reference_detection wApp wo2 wf3 _ "\x7bfield_1\x7d + 1" "field_1"
      (by decide) (by decide) rfl rfl (by decide)⟩

/-- The connection known only through an inbound list, carried by
`field_1`. -/
def bc1 : Connection :=
  { key := "field_1", name := "People", object := "object_2", has := "many",
    belongs_to := "one" }

/-- The field whose key coincides with `bc1`'s connection key. -/
def bf1 : KnackField :=
  { key := "field_1", name := "People Link", type := "connection",
    format := Option.none }

/-- An object whose only connection entry sits in the inbound list. -/
def bo1 : KnackObject :=
  { key := "object_1", name := "Inbound only", fields := [bf1],
    identifier := Option.none, sort := Option.none,
    connections := some { outbound := [], inbound := [bc1] } }

/-- A snapshot where `field_1` appears as a connection key only in an
inbound connection list. -/
def appInb : Application := { objects := [bo1], scenes := [] }

/-- Counterexample to C8 as stated: in `appInb` an object's connection
lists contain an entry whose own key is `field_1` (in the inbound list),
yet the field-usage scan for `field_1` is empty — the code scans only
outbound lists for connection keys. -/
theorem connection_field_detection_counterexample :
    (∃ obj ∈ appInb.objects, ∃ conns, obj.connections = some conns ∧
      ∃ c ∈ conns.outbound ++ conns.inbound, c.key = "field_1") ∧
    find_field_usages appInb "field_1" = [] := by
  refine ⟨⟨bo1, by decide, { outbound := [], inbound := [bc1] }, rfl, bc1,
    by decide, rfl⟩, ?_⟩
  decide

/-- C8 (amended).  Connection-field detection holds for outbound connection
lists: whenever an object of the snapshot has an outbound connection entry
whose own key equals `k`, the field-usage scan for `k` contains a
`connection_field` usage naming that object and the connection's target
object. -/
theorem connection_field_detection_outbound (app : Application)
    (obj : KnackObject) (conns : Connections) (c : Connection) (k : String)
    (hobj : obj ∈ app.objects) (hconn : obj.connections = some conns)
    (hc : c ∈ conns.outbound) (hkey : c.key = k) :
    ∃ u ∈ find_field_usages app k,
      u.location_type = "connection_field" ∧
      dget u.details "object_key" = some obj.key ∧
      dget u.details "target_object" = some c.object := by
  refine ⟨connectionFieldUsage obj c, ?_, rfl, ?_, ?_⟩
  · unfold find_field_usages
    apply List.mem_append_left
    apply List.mem_append_left
    apply List.mem_append_left
    apply List.mem_append_left
    apply List.mem_append_left
    unfold connectionFieldUsages
    rw [List.mem_flatMap]
    refine ⟨obj, hobj, ?_⟩
    rw [hconn]
    exact List.mem_map_of_mem _ (List.mem_filter.mpr ⟨hc, by simp [hkey]⟩)
  · exact dget_cons_self _ _ _
  · show dget [("object_key", obj.key), ("object_name", obj.name),
      ("target_object", c.object), ("connection_name", c.name)] "target_object"
      = some c.object
    rw [dget_cons_ne (by decide), dget_cons_ne (by decide)]
    exact dget_cons_self _ _ _

/-- Witness for the amended C8: `wo1`'s outbound connection is carried by
`field_2`, and the scan for `field_2` reports it. -/
theorem connection_field_detection_outbound_witness :
    (wo1 ∈ wApp.objects ∧
      wo1.connections = some { outbound := [wc1], inbound := [] } ∧
      wc1 ∈ ({ outbound := [wc1], inbound := [] } : Connections).outbound ∧
      wc1.key = "field_2") ∧
    (∃ u ∈ find_field_usages wApp "field_2",
      u.location_type = "connection_field" ∧
      dget u.details "object_key" = some wo1.key ∧
      dget u.details "target_object" = some wc1.object) :=
  ⟨⟨by decide, rfl, by decide, rfl⟩,
    connection_field_detection_outbound wApp wo1 _ wc1 "field_2" (by decide)
      rfl (by decide) rfl⟩

/-- C1.  Cascade completeness: for a snapshot whose object index carries
`O` under `O.key` (and whose field keys do not collide with the literal
dict key `"object_usages"`, as the `field_<n>` key format guarantees),
`search_object O.key` returns a mapping holding the `object_usages` entry
with the object-level scan, exactly the entries of fields of `O` whose
field scan is non-empty — each under the field's key with that field's
usage sequence — no entry for a field with an empty scan, no other entries,
and pairwise-distinct keys. -/
theorem cascade_completeness (app : Application) (O : KnackObject)
    (hO : objects_by_key app O.key = some O)
    (hfk : ∀ f ∈ O.fields, f.key ≠ "object_usages") :
    dget (search_object app O.key) "object_usages"
        = some (find_object_usages app O.key) ∧
    (∀ f ∈ O.fields,
      ((find_field_usages app f.key).isEmpty = false →
        dget (search_object app O.key) f.key = some (find_field_usages app f.key)) ∧
      ((find_field_usages app f.key).isEmpty = true →
        dget (search_object app O.key) f.key = Option.none)) ∧
    (∀ p ∈ search_object app O.key,
      p.1 = "object_usages" ∨ ∃ f ∈ O.fields, p.1 = f.key) ∧
    ((search_object app O.key).map Prod.fst).Nodup := by
  have hso : search_object app O.key = O.fields.foldl (cascadeStep app)
      (dictSet [("object_usages", [])] "object_usages"
        (find_object_usages app O.key)) := by
    simp [search_object, hO]
  refine ⟨?_, ?_, ?_, ?_⟩
  · rw [hso, foldl_cascade_dget]
    rw [if_neg (fun h => match h.2 with | ⟨g, hg, hk⟩ => hfk g hg hk)]
    exact dget_dictSet_self _ _ _
  · intro f hf
    constructor
    · intro hne
      rw [hso, foldl_cascade_dget, if_pos ⟨hne, f, hf, rfl⟩]
    · intro hemp
      rw [hso, foldl_cascade_dget, if_neg (fun h => by rw [hemp] at h; simp at h)]
      rw [dget_dictSet_ne (Ne.symm (hfk f hf)), dget_cons_ne (Ne.symm (hfk f hf))]
      rfl
  · intro p hp
    rw [hso] at hp
    rcases foldl_cascade_mem app O.fields _ p hp with hin | hfield
    · have hd : dictSet [("object_usages", ([] : List Usage))] "object_usages"
          (find_object_usages app O.key)
          = [("object_usages", find_object_usages app O.key)] := by
        simp [dictSet]
      rw [hd] at hin
      exact Or.inl (congrArg Prod.fst (List.mem_singleton.mp hin))
    · exact Or.inr hfield
  · rw [hso]
    apply foldl_cascade_keys_nodup
    apply keys_dictSet_nodup
    simp

/-- Witness for C1 on `wApp` and `wo1`: the `object_usages` entry is the
object-level scan and the non-trivially-used `field_1` gets its own
entry. -/
theorem cascade_completeness_witness :
    (objects_by_key wApp wo1.key = some wo1 ∧
      (∀ f ∈ wo1.fields, f.key ≠ "object_usages") ∧
      (find_field_usages wApp wf1.key).isEmpty = false) ∧
    (dget (search_object wApp wo1.key) "object_usages"
        = some (find_object_usages wApp wo1.key) ∧
      dget (search_object wApp wo1.key) wf1.key
        = some (find_field_usages wApp wf1.key)) :=
  ⟨⟨by decide, by decide, by decide⟩,
    ⟨(cascade_completeness wApp wo1 (by decide) (by decide)).1,
      ((cascade_completeness wApp wo1 (by decide) (by decide)).2.1 wf1
        (by decide)).1 (by decide)⟩⟩

/-! ### Impact analysis and architecture summary

`KnackSleuth.generate_impact_analysis` and `KnackSleuth.generate_app_summary`
are not part of the repository snapshot (only their CLI callers and examples
are), so the parts of them the claims depend on are modelled from the
specification's contract for the Impact Analyzer and the Architecture
Summarizer. -/

/-- The four-level breaking-change likelihood enumeration. -/
inductive BreakingChangeLikelihood where
  | none
  | low
  | medium
  | high
deriving DecidableEq, Repr

/-- The fixed ordering none < low < medium < high, as a numeric rank. -/
def likelihoodRank : BreakingChangeLikelihood → Nat
  | BreakingChangeLikelihood.none => 0
  | BreakingChangeLikelihood.low => 1
  | BreakingChangeLikelihood.medium => 2
  | BreakingChangeLikelihood.high => 3

/-- Modelled from the spec: the risk-scoring policy of the Impact Analyzer
(whose implementation is missing from the snapshot) assigns a
breaking-change likelihood from the total impact count with the fixed
thresholds 0 → none, 1–3 → low, 4–10 → medium, more than 10 → high. -/
def breaking_change_likelihood (total_impacts : Nat) : BreakingChangeLikelihood :=
  if total_impacts = 0 then BreakingChangeLikelihood.none
  else if total_impacts ≤ 3 then BreakingChangeLikelihood.low
  else if total_impacts ≤ 10 then BreakingChangeLikelihood.medium
  else BreakingChangeLikelihood.high

/-- The target block of an impact report. -/
structure ImpactTarget where
  key : String
  type : String
deriving DecidableEq, Repr

/-- The risk block of an impact report. -/
structure RiskAssessment where
  breaking_change_likelihood : BreakingChangeLikelihood
  impact_score : Nat
deriving DecidableEq, Repr

/-- The impact report returned for a resolvable target. -/
structure ImpactReport where
  target : ImpactTarget
  total_direct_impacts : Nat
  total_cascade_impacts : Nat
  risk_assessment : RiskAssessment
deriving DecidableEq, Repr

/-- The result of the impact analysis: either a report, or the structured
error value (the Python dict carrying an `"error"` entry that the CLI
caller checks for). -/
inductive ImpactResult where
  | report (r : ImpactReport)
  | error (message : String)
deriving DecidableEq, Repr

/-- Modelled from the spec: the not-found error carries a human-readable
message naming the missing key. -/
def notFoundMessage (target_key : String) : String :=
  "Could not find object or field with key: " ++ target_key

/-- Modelled from the spec: `KnackSleuth.generate_impact_analysis` resolves
the target key as an object, else as a field; for a resolvable target it
reports impact totals (direct usages plus, for objects, the cascade of
fields with non-empty scans) and the risk scoring; for an unresolvable key
it returns the structured not-found error value.  It is a total function:
no input raises. -/
def generate_impact_analysis (app : Application) (target_key : String) : ImpactResult :=
  match objects_by_key app target_key with
  | some obj =>
    let direct := (find_object_usages app target_key).length
    let cascade := (obj.fields.filter
      (fun f => !(find_field_usages app f.key).isEmpty)).length
    ImpactResult.report
      { target := { key := target_key, type := "object" }
        total_direct_impacts := direct
        total_cascade_impacts := cascade
        risk_assessment :=
          { breaking_change_likelihood := breaking_change_likelihood (direct + cascade)
            impact_score := direct + cascade } }
  | Option.none =>
    match field_to_object app target_key with
    | some _ =>
      let direct := (find_field_usages app target_key).length
      ImpactResult.report
        { target := { key := target_key, type := "field" }
          total_direct_impacts := direct
          total_cascade_impacts := 0
          risk_assessment :=
            { breaking_change_likelihood := breaking_change_likelihood direct
              impact_score := direct } }
    | Option.none => ImpactResult.error (notFoundMessage target_key)

/-- All fields of all objects of the snapshot, in document order. -/
def allFields (app : Application) : List KnackField :=
  app.objects.flatMap (fun obj => obj.fields)

/-- The equation text of a field's format payload, when both exist. -/
def equationOf (field : KnackField) : Option String :=
  match field.format with
  | Option.none => Option.none
  | some fmt => fmt.equation

/-- The fields of the snapshot whose bracketed key token occurs in the
equation text `eqn`. -/
def referencedFields (app : Application) (eqn : String) : List KnackField :=
  (allFields app).filter (fun g => strContains eqn ("\x7b" ++ g.key ++ "\x7d"))

/-- Modelled from the spec: formula-chain depth follows `\x7bfield_key\x7d`
references transitively with a max-depth cap (the fuel), so cyclic
references cannot loop. -/
def chainDepth (app : Application) : Nat → KnackField → Nat
  | 0, _ => 0
  | Nat.succ fuel, f =>
    match equationOf f with
    | Option.none => 0
    | some eqn =>
      1 + ((referencedFields app eqn).map (chainDepth app fuel)).foldr max 0

/-- Modelled from the spec: the maximum formula-reference chain depth over
all fields, with the traversal capped at the total field count. -/
def max_formula_chain_depth (app : Application) : Nat :=
  ((allFields app).map (chainDepth app (allFields app).length)).foldr max 0

/-- The calculation-complexity block of the architecture summary. -/
structure CalculationComplexity where
  total_formula_fields : Nat
  objects_with_formulas : Nat
  max_formula_chain_depth : Nat
deriving DecidableEq, Repr

/-- The architecture summary, restricted to the bounded-traversal
calculation metrics that the termination claim concerns. -/
structure AppSummary where
  calculation_complexity : CalculationComplexity
deriving DecidableEq, Repr

/-- Modelled from the spec: `KnackSleuth.generate_app_summary`'s
calculation-complexity sub-analysis — formula-field counts and the capped
maximum formula-chain depth.  The remaining sub-analyses of the summary are
independent of the formula traversal and are not modelled. -/
def generate_app_summary (app : Application) : AppSummary :=
  { calculation_complexity :=
    { total_formula_fields :=
        ((allFields app).filter (fun f => (equationOf f).isSome)).length
      objects_with_formulas :=
        (app.objects.filter
          (fun obj => obj.fields.any (fun f => (equationOf f).isSome))).length
      max_formula_chain_depth := max_formula_chain_depth app } }

theorem foldr_max_le (l : List Nat) (n : Nat) (h : ∀ x ∈ l, x ≤ n) :
    l.foldr max 0 ≤ n := by
  induction l with
  | nil => exact Nat.zero_le n
  | cons x xs ih =>
    simp only [List.foldr_cons]
    exact max_le (h x (List.mem_cons_self x xs))
      (ih (fun y hy => h y (List.mem_cons_of_mem x hy)))

theorem chainDepth_le_fuel (app : Application) :
    ∀ fuel f, chainDepth app fuel f ≤ fuel := by
  intro fuel
  induction fuel with
  | zero => intro f; exact Nat.le.refl
  | succ n ih =>
    intro f
    cases heq : equationOf f with
    | none => simp [chainDepth, heq]
    | some eqn =>
      simp only [chainDepth, heq]
      have hb : ((referencedFields app eqn).map (chainDepth app n)).foldr max 0 ≤ n := by
        apply foldr_max_le
        intro x hx
        rcases List.mem_map.mp hx with ⟨g, hg, rfl⟩
        exact ih g
      omega

/-- C4.  Risk monotonicity: for impact counts `n1 < n2` the assigned
breaking-change likelihood is non-decreasing under the rank ordering
none < low < medium < high, and every assigned likelihood belongs to the
four-level enumeration. -/
theorem risk_monotonicity (n1 n2 : Nat) (h : n1 < n2) :
    likelihoodRank (breaking_change_likelihood n1)
      ≤ likelihoodRank (breaking_change_likelihood n2) ∧
    (∀ n : Nat, breaking_change_likelihood n = BreakingChangeLikelihood.none ∨
      breaking_change_likelihood n = BreakingChangeLikelihood.low ∨
      breaking_change_likelihood n = BreakingChangeLikelihood.medium ∨
      breaking_change_likelihood n = BreakingChangeLikelihood.high) := by
  constructor
  · unfold breaking_change_likelihood
    split_ifs <;> simp [likelihoodRank] <;> omega
  · intro n
    unfold breaking_change_likelihood
    split_ifs <;> simp

/-- Witness for C4 at impact counts 2 and 5. -/
theorem risk_monotonicity_witness :
    2 < 5 ∧
    (likelihoodRank (breaking_change_likelihood 2)
        ≤ likelihoodRank (breaking_change_likelihood 5) ∧
      (∀ n : Nat, breaking_change_likelihood n = BreakingChangeLikelihood.none ∨
        breaking_change_likelihood n = BreakingChangeLikelihood.low ∨
        breaking_change_likelihood n = BreakingChangeLikelihood.medium ∨
        breaking_change_likelihood n = BreakingChangeLikelihood.high)) :=
  ⟨by decide, risk_monotonicity 2 5 (by decide)⟩

/-- C5.  Impact-analysis not-found contract: when the target key resolves
to neither a known object nor a known field, the analysis returns the
structured error value whose message names the missing key (the key occurs
in the message text).  The analysis is a total function, so no input
raises. -/
theorem impact_analysis_not_found (app : Application) (k : String)
    (ho : objects_by_key app k = Option.none)
    (hf : field_to_object app k = Option.none) :
    generate_impact_analysis app k = ImpactResult.error (notFoundMessage k) ∧
    k.data <:+: (notFoundMessage k).data := by
  constructor
  · simp [generate_impact_analysis, ho, hf]
  · show k.data <:+: ("Could not find object or field with key: " ++ k).data
    rw [String.data_append]
    exact (List.suffix_append _ _).isInfix

/-- Witness for C5: `field_99` resolves to nothing in `wApp`. -/
theorem impact_analysis_not_found_witness :
    (objects_by_key wApp "field_99" = Option.none ∧
      field_to_object wApp "field_99" = Option.none) ∧
    (generate_impact_analysis wApp "field_99"
        = ImpactResult.error (notFoundMessage "field_99") ∧
      "field_99".data <:+: (notFoundMessage "field_99").data) :=
  ⟨⟨by decide, by decide⟩,
    impact_analysis_not_found wApp "field_99" (by decide) (by decide)⟩

/-- C6.  Formula-chain termination: the app summary's formula-chain
traversal is fuel-bounded, so it is a total function of the snapshot —
including snapshots with self-referencing or mutually-cyclic equations —
and the reported maximum chain depth is finite, bounded by the total field
count of the snapshot. -/
theorem formula_chain_termination (app : Application) :
    (generate_app_summary app).calculation_complexity.max_formula_chain_depth
      ≤ (allFields app).length := by
  show max_formula_chain_depth app ≤ (allFields app).length
  unfold max_formula_chain_depth
  apply foldr_max_le
  intro x hx
  rcases List.mem_map.mp hx with ⟨f, hf, rfl⟩
  exact chainDepth_le_fuel app (allFields app).length f

end KnackSlueth
